import Mathlib

/-!
Shallow embedding of `transform.mjs` (a tiny ad-filtering pattern list
transformer): the filter-line parser, the hostname pattern extractor, the
hosts/json compilers, and the format/fix (diagnose/apply) engine.

Lines are modelled as `List Char` (one entry per UTF-16 code unit of the
JavaScript string; all inputs of interest are ASCII, where the two coincide).
`line.charCodeAt(i)` is modelled as `l[i]?` (`none` plays the role of `NaN`:
every `NaN === k` comparison is false, matching `none = some k` being false),
and character-code comparisons such as `c === 124` are written as character
comparisons `l[i]? = some c` with the character literal, which is equivalent
since a code unit determines the character.  `String.prototype.slice` with
its coercion and clamping rules is modelled by `jsSlice` over `Int` indices.
-/

def strL (s : String) : List Char := s.data

/-- `line.slice(a, b)` for already-in-range natural indices `a ≤ b ≤ length`:
the code units in positions `[a, b)`. -/
def sliceN (l : List Char) (a b : Nat) : List Char := (l.take b).drop a

/-- ECMAScript `slice` index conversion: negative indices count from the end
(clamped below at 0), nonnegative ones are clamped above at the length. -/
def jsSliceIdx (len : Nat) (v : Int) : Nat :=
  if v < 0 then ((len : Int) + v).toNat else min v.toNat len

/-- `line.slice(a, b)` with arbitrary (possibly negative) integer indices. -/
def jsSlice (l : List Char) (a b : Int) : List Char :=
  (l.take (jsSliceIdx l.length b)).drop (jsSliceIdx l.length a)

/-- `line.slice(a)` (one-argument slice: up to the end of the string). -/
def jsSliceFrom (l : List Char) (a : Int) : List Char :=
  jsSlice l a (l.length : Int)

/-- `line.charCodeAt(i)` for a possibly negative index: `none` models `NaN`. -/
def getI (l : List Char) (i : Int) : Option Char :=
  if i < 0 then none else l[i.toNat]?

/-- `isWhitespace` from transform.mjs: code points `<= 32` and `DEL` (127). -/
def isWhitespace (c : Nat) : Bool := c ≤ 32 || c = 127

/-- `isAlphabet` from transform.mjs: upper-cases by subtracting 32 from codes
`>= 97`, then tests the `A`..`Z` range. -/
def isAlphabet (c : Nat) : Bool :=
  let u := if c ≥ 97 then c - 32 else c
  65 ≤ u && u ≤ 90

/-- `isNumeric` from transform.mjs: codes of `0`..`9`. -/
def isNumeric (c : Nat) : Bool := 48 ≤ c && c ≤ 57

/-- `isPathnamePattern` from transform.mjs: `|`, `#`, `/`, `?`, `&`. -/
def isPathnamePattern (c : Char) : Bool :=
  c = '|' || c = '#' || c = '/' || c = '?' || c = '&'

/-- The set removed by ECMAScript `trimStart`/`trimEnd`/`trim`: WhiteSpace
and LineTerminator code points.  (This differs from the script's own
`isWhitespace`: e.g. `DEL` (127) and control characters below 9 are trimmed
by neither `trimStart` nor `trimEnd`.) -/
def isJsTrimWs (c : Char) : Bool :=
  let n := c.toNat
  (9 ≤ n && n ≤ 13) || n = 32 || n = 160 || n = 0x1680 ||
  (0x2000 ≤ n && n ≤ 0x200A) || n = 0x2028 || n = 0x2029 ||
  n = 0x202F || n = 0x205F || n = 0x3000 || n = 0xFEFF

/-- `s.trimStart()`. -/
def jsTrimStart (l : List Char) : List Char := l.dropWhile isJsTrimWs

/-- `s.trimEnd()`. -/
def jsTrimEnd (l : List Char) : List Char :=
  (l.reverse.dropWhile isJsTrimWs).reverse

/-- `s.trim()`. -/
def jsTrim (l : List Char) : List Char := jsTrimEnd (jsTrimStart l)

/-- `list.split('\n')`: always returns at least one (possibly empty) line. -/
def splitNl (l : List Char) : List (List Char) :=
  match l with
  | [] => [[]]
  | c :: rest =>
    match splitNl rest with
    | [] => [[]]
    | first :: others =>
      if c = '\n' then [] :: first :: others else (c :: first) :: others

/-- `lines.join('\n')`. -/
def joinNl (ls : List (List Char)) : List Char := List.intercalate ['\n'] ls

deriving instance DecidableEq for Except

/-- The `SyntaxError` raised by the cosmetic sub-parse; it carries the
offending position (the JavaScript object also carries a message string
formatted from the same data, which we do not model). -/
structure SyntaxErr where
  pos : Nat
deriving DecidableEq, Repr

/-- A parsed cosmetic filter (`FILTER_TYPE_COSMETIC` record). -/
structure CosmeticFilter where
  line : List Char
  hostname : List Char
  selector : List Char
  isException : Bool
deriving DecidableEq, Repr

/-- One parsed network-filter modifier together with its marker spans:
the `(name, value)` entry of `details.modifiers` zipped with the
corresponding `details.markers.modifiers` entry (the JavaScript keeps two
parallel arrays indexed identically). -/
structure ModEntry where
  name : List Char
  nameMarker : Nat × Nat
  value : Option (List Char)
  valueMarker : Option (Nat × Nat)
deriving DecidableEq, Repr

/-- A parsed network filter (`FILTER_TYPE_NETWORK` record).
`patMarkerStart` holds the effective numeric value of
`details.markers.pattern[0]` as consumed by `String.slice` (see
`netPatStart` for the coercion it goes through), `patMarkerEnd` the value of
`details.markers.pattern[1]`. -/
structure NetworkFilter where
  line : List Char
  pattern : List Char
  mods : List ModEntry
  isException : Bool
  matchSubdomains : Bool
  matchBeginningOfAddress : Bool
  matchEndOfAddress : Bool
  patMarkerStart : Int
  patMarkerEnd : Int
deriving DecidableEq, Repr

/-- `details.modifiers`: the `(name, optional value)` pairs in source order. -/
def NetworkFilter.modifiers (d : NetworkFilter) : List (List Char × Option (List Char)) :=
  d.mods.map fun m => (m.name, m.value)

/-- The tagged record produced by `parseFilter` (`FILTER_TYPE_OTHERS` /
`FILTER_TYPE_NETWORK` / `FILTER_TYPE_COSMETIC`). -/
inductive FilterRecord where
  | other (line : List Char)
  | network (d : NetworkFilter)
  | cosmetic (d : CosmeticFilter)
deriving DecidableEq, Repr

/-- The marker scan of `parseCosmeticFilter`, over the suffix of the line
starting just after the first `#` (absolute position `i`): `@` sets the
exception flag and continues, a second `#` stops with the selector starting
right after it, end of line stops with the selector empty, anything else is
a `SyntaxError` at that position. -/
def cosmeticScanAux : List Char → Nat → Bool → Except SyntaxErr (Nat × Bool)
  | [], i, exc => .ok (i, exc)
  | c :: rest, i, exc =>
    if c = '@' then cosmeticScanAux rest (i + 1) true
    else if c = '#' then .ok (i + 1, exc)
    else .error ⟨i⟩

/-- `parseCosmeticFilter(line, i)` where `i` is the position of the first
`#`: hostname is `line.slice(0, i)`, then the marker scan decides the
exception flag and the selector start. -/
def parseCosmeticFilter (l : List Char) (i : Nat) : Except SyntaxErr CosmeticFilter :=
  (cosmeticScanAux (l.drop (i + 1)) (i + 1) false).map fun r =>
    { line := l, hostname := sliceN l 0 i, selector := l.drop r.1, isException := r.2 }

/-- The whitespace-skipping loop of `parseNetworkFilter`: index of the first
character that is not `isWhitespace`-white, `none` when every character is
(the marker then keeps its initial `-1`).  Note the JavaScript loop shadows
the outer `i` with its own `let i`, so only the marker is affected — the
parse position used by the `@@`/`|` checks below stays 0. -/
def firstNonWsIdx (l : List Char) : Option Nat :=
  l.findIdx? fun c => !(isWhitespace c.toNat)

/-- The `@@` exception check of `parseNetworkFilter` (at position 0, since
the whitespace loop does not advance the outer index). -/
def netExcFlag (l : List Char) : Bool :=
  l[0]? = some '@' && l[1]? = some '@'

/-- Parse position after the `@@` check. -/
def netAfterExc (l : List Char) : Nat := if netExcFlag l then 2 else 0

/-- `matchSubdomains`: a double `|` at the current position. -/
def netSubsFlag (l : List Char) : Bool :=
  l[netAfterExc l]? = some '|' && l[netAfterExc l + 1]? = some '|'

/-- `matchBeginningOfAddress`: a single `|` at the current position. -/
def netBoaFlag (l : List Char) : Bool :=
  l[netAfterExc l]? = some '|' && !(l[netAfterExc l + 1]? = some '|')

/-- Parse position after the pipe checks; the scan for the modifier marker
starts here. -/
def netAnchorEnd (l : List Char) : Nat :=
  if l[netAfterExc l]? = some '|' then
    if l[netAfterExc l + 1]? = some '|' then netAfterExc l + 2 else netAfterExc l + 1
  else netAfterExc l

/-- The lookahead inside the modifier-marker scan: first position `≥ k`
holding `=` or `$` (the JavaScript inner loop breaking at either). -/
def findEqDollar (l : List Char) (k : Nat) : Option Nat :=
  ((l.drop k).findIdx? fun c => c = '=' || c = '$').map (· + k)

/-- The modifier-marker scan of `parseNetworkFilter` (fuel-indexed; the fuel
only needs to dominate the number of visited positions, each step advances
by at least one).  At a `$`, look ahead for the nearest `=` or `$`: an `=`
(or end of line) confirms the `$` at the current position; another `$` makes
the scan resume just after that later `$`. -/
def findModAux : Nat → List Char → Nat → Nat
  | 0, _, i => i
  | fuel + 1, l, i =>
    if i < l.length then
      if l[i]? = some '$' then
        match findEqDollar l (i + 1) with
        | some k => if l[k]? = some '$' then findModAux fuel l (k + 1) else i
        | none => i
      else findModAux fuel l (i + 1)
    else i

/-- Position where the scan of `parseNetworkFilter` stops: either the
confirmed `$` starting the modifier section, or the line length. -/
def netModMarker (l : List Char) : Nat :=
  findModAux (l.length + 1) l (netAnchorEnd l)

/-- `matchEndOfAddress`: a `|` immediately before the scan stop. -/
def netEoaFlag (l : List Char) : Bool :=
  getI l ((netModMarker l : Int) - 1) = some '|'

/-- The value of `details.markers.pattern[0]` as consumed by `slice`.
The source assigns the one-element array `[i]` to the marker in the
whitespace loop; the later `+=` of the anchor adjustment (0, 1 or 2) then
string-concatenates (`[w] + a` is the string `"wa"`), and `slice` coerces
that string back to the number `10*w + a`.  When the whitespace loop never
fires the marker keeps the number `-1` and the `+=` is numeric. -/
def netPatStart (l : List Char) : Int :=
  let adj : Int := if netBoaFlag l then 1 else if netSubsFlag l then 2 else 0
  match firstNonWsIdx l with
  | some w => 10 * (w : Int) + adj
  | none => -1 + adj

/-- `details.markers.pattern[1]`: the line length when no modifier marker was
confirmed, otherwise one position before the confirmed `$`. -/
def netPatEnd (l : List Char) : Int :=
  if netModMarker l = l.length then (l.length : Int) else (netModMarker l : Int) - 1

/-- The terminating position of the modifier-value scan: the first `,` at or
after `j`, else the line length (where `charCodeAt` yields `NaN`).  The
source also tests for `\` before the delimiter test, but its `continue`
merely moves to the next character — exactly what happens for any
non-delimiter — so a backslash does not actually escape the delimiter. -/
def findValueEnd (l : List Char) (j : Nat) : Nat :=
  match ((l.drop j).findIdx? fun c => c = ',') with
  | some r => j + r
  | none => l.length

/-- The modifier-splitting loop of `parseNetworkFilter` (fuel-indexed), with
`i` the scan position and `k` the start of the current entry: an `=` closes
a name and opens a value scan, a `,` closes a value-less entry, end of line
(`NaN`) pushes the leftover entry when nonempty. -/
def scanModsAux : Nat → List Char → Nat → Nat → List ModEntry → List ModEntry
  | 0, _, _, _, acc => acc
  | fuel + 1, l, i, k, acc =>
    if i < l.length + 1 then
      match l[i]? with
      | some c =>
        if c = '=' then
          let term := findValueEnd l (i + 1)
          scanModsAux fuel l (term + 1) (term + 1)
            (acc ++ [{ name := sliceN l k i, nameMarker := (k, i),
                       value := some (sliceN l (i + 1) term),
                       valueMarker := some (i + 1, term) }])
        else if c = ',' then
          scanModsAux fuel l (i + 1) (i + 1)
            (acc ++ [{ name := sliceN l k i, nameMarker := (k, i),
                       value := none, valueMarker := none }])
        else scanModsAux fuel l (i + 1) k acc
      | none =>
        if i > k then
          scanModsAux fuel l (i + 1) k
            (acc ++ [{ name := sliceN l k i, nameMarker := (k, i),
                       value := none, valueMarker := none }])
        else scanModsAux fuel l (i + 1) k acc
    else acc

/-- The modifier entries of a line, scanning from just after the modifier
marker (`k = ++i` in the source). -/
def netMods (l : List Char) : List ModEntry :=
  scanModsAux (l.length + 2) l (netModMarker l + 1) (netModMarker l + 1) []

/-- `parseNetworkFilter(line)`.  Never fails: malformed input degrades to an
unusual pattern/modifier split. -/
def parseNetworkFilter (l : List Char) : NetworkFilter :=
  { line := l
    pattern := jsSlice l (netPatStart l) (netPatEnd l)
    mods := netMods l
    isException := netExcFlag l
    matchSubdomains := netSubsFlag l
    matchBeginningOfAddress := netBoaFlag l
    matchEndOfAddress := netEoaFlag l
    patMarkerStart := netPatStart l
    patMarkerEnd := netPatEnd l }

/-- The classification scan of `parseFilter` over the suffix `l.drop i`:
`[` or `!` first → comment (`other`); `/`, `:`, `^`, `@` or `|` first →
network; `#` first → cosmetic; exhausted → network. -/
def routeScanAux (l : List Char) : List Char → Nat → Except SyntaxErr FilterRecord
  | [], _ => .ok (.network (parseNetworkFilter l))
  | c :: rest, i =>
    if c = '[' || c = '!' then .ok (.other l)
    else if c = '/' || c = ':' || c = '^' || c = '@' || c = '|' then
      .ok (.network (parseNetworkFilter l))
    else if c = '#' then (parseCosmeticFilter l i).map .cosmetic
    else routeScanAux l rest (i + 1)

/-- `parseFilter(line)`: empty lines are `other`, otherwise the
classification scan decides the sub-parser. -/
def parseFilter (l : List Char) : Except SyntaxErr FilterRecord :=
  if l.length = 0 then .ok (.other l) else routeScanAux l l 0

/-- `isRegexpPattern`: first and last code unit of the pattern are `/`
(out-of-range `charCodeAt` gives `NaN`, so the empty pattern is not a
regexp pattern). -/
def isRegexpPattern (d : NetworkFilter) : Bool :=
  d.pattern[0]? = some '/' && d.pattern[d.pattern.length - 1]? = some '/'

/-- The interior-character loop of `transformToHostnamePattern`, running over
the suffix `s` of the pattern starting at index 1, for `m` iterations (the
source loops `i` from 1 while `i < pattern.length + o`): a path/query
delimiter or `*` rejects (`none`); a `.` followed by another `.` (lookahead
`charCodeAt(i+1)`, unconstrained by the bound) rejects; otherwise a `.`
records `hasDot`.  Returns the final `hasDot` on success. -/
def interiorScanL : List Char → Nat → Bool → Option Bool
  | _, 0, hasDot => some hasDot
  | [], _ + 1, hasDot => some hasDot
  | c :: rest, m + 1, hasDot =>
    if isPathnamePattern c || c = '*' then none
    else if c = '.' then
      if rest.head? = some '.' then none
      else interiorScanL rest m true
    else interiorScanL rest m hasDot

/-- The initial rejection guard of `transformToHostnamePattern`: regexp
pattern, anchored pattern, or pattern length below 3. -/
def toHostGuard (d : NetworkFilter) : Bool :=
  isRegexpPattern d || d.matchEndOfAddress || d.matchBeginningOfAddress ||
    decide (d.pattern.length < 3)

/-- The trailing-separator detection of `transformToHostnamePattern`: the
last code unit is `^` (the source then decrements its offset `o`). -/
def patCaret (p : List Char) : Bool := p[p.length - 1]? = some '^'

/-- The position of the last character validated by
`transformToHostnamePattern` (`pattern.length + o` with `o` as in the
source: `-2` after a trailing `^`, else `-1`). -/
def patStop (p : List Char) : Nat :=
  if patCaret p then p.length - 2 else p.length - 1

/-- First-character validation of `transformToHostnamePattern`: an ASCII
digit or letter. -/
def patFirstOk (p : List Char) : Bool :=
  (p[0]?.map fun c => isNumeric c.toNat || isAlphabet c.toNat).getD false

/-- Last-character validation of `transformToHostnamePattern`: an ASCII
letter at the position `patStop` (after the optional trailing `^`). -/
def patLastOk (p : List Char) : Bool :=
  (p[patStop p]?.map fun c => isAlphabet c.toNat).getD false

/-- `transformToHostnamePattern(details)`: `none` for regexp patterns,
anchored patterns, short patterns, bad first/last characters, bad interior
characters, repeated dots, or dot-less patterns; otherwise the pattern with
one trailing `^` stripped. -/
def transformToHostnamePattern (d : NetworkFilter) : Option (List Char) :=
  if toHostGuard d then none
  else if !patFirstOk d.pattern then none
  else if !patLastOk d.pattern then none
  else
    match interiorScanL (d.pattern.drop 1) (patStop d.pattern - 1) false with
    | none => none
    | some hasDot =>
      if !hasDot then none
      else some (if patCaret d.pattern then d.pattern.take (d.pattern.length - 1)
                 else d.pattern)

/-- `isThirdpartyConstraint(opt)`: the modifier name is `3p` or
`third-party`. -/
def isThirdpartyConstraint (opt : List Char) : Bool :=
  opt = strL "3p" || opt = strL "third-party"

/-- `Set.prototype.add`: append when absent (insertion order preserved). -/
def setAdd [DecidableEq α] (s : List α) (x : α) : List α :=
  if x ∈ s then s else s ++ [x]

/-- `Set.prototype.delete`: remove the element when present. -/
def setDel [DecidableEq α] (s : List α) (x : α) : List α :=
  s.filter (· ≠ x)

/-- The accumulator of `compileHosts`: the two hostname sets (the
`exceptions` set can also receive `null` — modelled as `none` — when a
strict-mode exception line has no extractable hostname), plus the log of
lines whose parse raised and was caught (`console.error` with the line). -/
structure HostsState where
  exceptions : List (Option (List Char))
  hostnames : List (List Char)
  log : List (List Char)
deriving DecidableEq, Repr

/-- One iteration of the `compileHosts` fold: parse errors are caught,
logged and skipped; non-network records are skipped; exceptions (with the
non-strict path-level fallback truncating the pattern at the first `/`)
move the hostname out of `hostnames` into `exceptions`; non-strict `3p` /
`third-party` blocks are promoted to exceptions; remaining blocks are added
to `hostnames`. -/
def hostsStep (strict : Bool) (st : HostsState) (line : List Char) : HostsState :=
  match parseFilter line with
  | .error _ => { st with log := st.log ++ [line] }
  | .ok (.other _) => st
  | .ok (.cosmetic _) => st
  | .ok (.network d) =>
    let hn := transformToHostnamePattern d
    if d.isException then
      if strict = false && hn = none then
        match d.pattern.findIdx? (· = '/') with
        | none => st
        | some j =>
          let d2 := { d with pattern := d.pattern.take j }
          match transformToHostnamePattern d2 with
          | none => st
          | some h =>
            { st with exceptions := setAdd st.exceptions (some h),
                      hostnames := setDel st.hostnames h }
      else
        { st with exceptions := setAdd st.exceptions hn,
                  hostnames := match hn with
                               | some h => setDel st.hostnames h
                               | none => st.hostnames }
    else
      match hn with
      | none => st
      | some h =>
        if strict = false && d.modifiers.any (fun m => isThirdpartyConstraint m.1) then
          { st with exceptions := setAdd st.exceptions (some h),
                    hostnames := setDel st.hostnames h }
        else
          { st with hostnames := setAdd st.hostnames h }

/-- The `compileHosts` fold over the split lines. -/
def compileHostsState (text : List Char) (strict : Bool) : HostsState :=
  (splitNl text).foldl (hostsStep strict) ⟨[], [], []⟩

/-- `compileHosts(list, opts)`: one `127.0.0.1 <hostname>` line per
surviving blocked hostname, in insertion order. -/
def compileHosts (text : List Char) (strict : Bool) : List Char :=
  joinNl ((compileHostsState text strict).hostnames.map (strL "127.0.0.1 " ++ ·))

/-- One iteration of the `compileJson` fold: parse errors are caught, logged
and skipped; every successfully parsed record is kept in order.  (The final
`JSON.stringify` serialization is outside the modelled core.) -/
def jsonStep (st : List FilterRecord × List (List Char)) (line : List Char) :
    List FilterRecord × List (List Char) :=
  match parseFilter line with
  | .ok r => (st.1 ++ [r], st.2)
  | .error _ => (st.1, st.2 ++ [line])

/-- `compileJson(list)` up to serialization: the parsed records and the log
of skipped lines. -/
def compileJsonState (text : List Char) : List FilterRecord × List (List Char) :=
  (splitNl text).foldl jsonStep ([], [])

/-- The diff rules emitted by `format` (the rule-name strings of the
source). -/
inductive Rule where
  | noWs                -- no-whitespaces
  | noModWs             -- no-modifier-whitespaces
  | fullModName         -- full-modifier-name
  | noModValWs          -- no-modifier-value-whitespaces
deriving DecidableEq, Repr

/-- A formatting edit: `del` is `DIFF_TYPE_DELETE` (offset, length), `ins`
is `DIFF_TYPE_CREATE` (offset, inserted text).  Offsets and lengths are
integers: the source's arithmetic can and does drive them negative. -/
inductive Diff where
  | del (rule : Rule) (off : Int) (len : Int)
  | ins (rule : Rule) (off : Int) (text : List Char)
deriving DecidableEq, Repr

/-- `FILTER_MODIFIER_TYPE_TABLE`: alias → full modifier name. -/
def modifierTypeTable : List (List Char × List Char) :=
  [(strL "1p", strL "first-party"),
   (strL "3p", strL "third-party"),
   (strL "xhr", strL "xmlhttprequest")]

/-- The diffs `format` emits for one modifier entry, in source order:
name leading-whitespace delete, name trailing-whitespace delete, alias
delete+insert pair, then (when a value is present) value leading- and
trailing-whitespace deletes. -/
def formatModDiffs (e : ModEntry) : List Diff :=
  let opt := e.name
  let startTrim := opt.length - (jsTrimStart opt).length
  let endTrim := opt.length - (jsTrimEnd opt).length
  let d1 : List Diff :=
    if !(opt.length = (jsTrimStart opt).length) then
      [.del .noModWs (e.nameMarker.1 : Int) (startTrim : Int)] else []
  let d2 : List Diff :=
    if !(opt.length = (jsTrimEnd opt).length) then
      [.del .noModWs ((e.nameMarker.2 : Int) - (endTrim : Int)) (endTrim : Int)] else []
  let d3 : List Diff :=
    match modifierTypeTable.find? (fun a => jsTrim opt = a.1) with
    | some a =>
      [.del .fullModName (e.nameMarker.1 : Int)
        ((e.nameMarker.2 : Int) - (e.nameMarker.1 : Int)),
       .ins .fullModName (e.nameMarker.1 : Int) a.2]
    | none => []
  let d4 : List Diff :=
    match e.value, e.valueMarker with
    | some val, some vm =>
      let vStartTrim := val.length - (jsTrimStart val).length
      let vEndTrim := val.length - (jsTrimEnd val).length
      (if !(val.length = (jsTrimStart val).length) then
        [.del .noModValWs (vm.1 : Int) (vStartTrim : Int)] else []) ++
      (if !(val.length = (jsTrimEnd val).length) then
        [.del .noModValWs ((vm.2 : Int) - (vEndTrim : Int)) (vEndTrim : Int)] else [])
    | _, _ => []
  d1 ++ d2 ++ d3 ++ d4

/-- `format(details)`: the ordered diagnostic list — leading-whitespace
delete, trailing-whitespace delete (note the source emits the trailing diff
with offset at the last non-whitespace index and length reaching the end of
the line, so it covers one character more than the whitespace run), then
the per-modifier diffs for network records. -/
def formatDiffs (r : FilterRecord) : List Diff :=
  let l := match r with
           | .other l => l
           | .network d => d.line
           | .cosmetic d => d.line
  let lead : Nat := l.findIdx fun c => !(isWhitespace c.toNat)
  let dLead : List Diff := if !(lead = 0) then [.del .noWs 0 (lead : Int)] else []
  let lastNonWs : Int :=
    (l.length : Int) - 1 - ((l.reverse.findIdx fun c => !(isWhitespace c.toNat)) : Int)
  let dTrail : List Diff :=
    if !(lastNonWs = (l.length : Int) - 1) then
      [.del .noWs lastNonWs ((l.length : Int) - lastNonWs)] else []
  let dMods : List Diff :=
    match r with
    | .network d => (d.mods.map formatModDiffs).flatten
    | _ => []
  dLead ++ dTrail ++ dMods

/-- Applying `DIFF_TYPE_DELETE`: `line.slice(0, off) + line.slice(off + len)`. -/
def applyDel (l : List Char) (off len : Int) : List Char :=
  jsSlice l 0 off ++ jsSliceFrom l (off + len)

/-- Applying `DIFF_TYPE_CREATE`: `line.slice(0, off) + text + line.slice(off)`. -/
def applyIns (l : List Char) (off : Int) (txt : List Char) : List Char :=
  jsSlice l 0 off ++ txt ++ jsSliceFrom l off

/-- Rebasing a not-yet-applied diff after a delete at `(off, len)`: a later
delete whose offset lies before `off + len` is treated as overlapping (the
test is one-sided) — its offset is pulled back to `off` when it was beyond,
and its length is shrunk by `len`; any other diff beyond `off` is shifted
left by `len`. -/
def rebaseAfterDel (off len : Int) : Diff → Diff
  | .del r o n =>
    if off + len > o then
      .del r (if o > off then off else o) (n - len)
    else
      .del r (if o > off then o - len else o) n
  | .ins r o t => .ins r (if o > off then o - len else o) t

/-- Rebasing a not-yet-applied diff after an insert of `txt` at `off`: every
later diff's offset is shifted right by the inserted length, and every later
delete's length is widened by it. -/
def rebaseAfterIns (txt : List Char) : Diff → Diff
  | .del r o n => .del r (o + (txt.length : Int)) (n + (txt.length : Int))
  | .ins r o t => .ins r (o + (txt.length : Int)) t

/-- The loop of `fix`, fuel-indexed by the number of remaining diffs (the
rebase step keeps the list length, so the initial length is exact fuel):
apply the head diff, rebase the not-yet-applied tail, continue. -/
def fixAux : Nat → List Char → List Diff → List Char
  | 0, l, _ => l
  | _ + 1, l, [] => l
  | fuel + 1, l, .del _ o n :: rest =>
    fixAux fuel (applyDel l o n) (rest.map (rebaseAfterDel o n))
  | fuel + 1, l, .ins _ o t :: rest =>
    fixAux fuel (applyIns l o t) (rest.map (rebaseAfterIns t))

/-- `fix(line, diffs)`: apply the diffs in diagnosed order, rebasing the
not-yet-applied ones after each application. -/
def fix (l : List Char) (ds : List Diff) : List Char :=
  fixAux ds.length l ds

/-- One line of `check`: parse (uncaught — a `SyntaxError` propagates),
diagnose, and apply the fixes to the line. -/
def checkLine (l : List Char) : Except SyntaxErr (List Char) :=
  (parseFilter l).map fun r => fix l (formatDiffs r)

/-- The `check` loop: processes lines in order; the first parse error
aborts the whole run (nothing is returned for any line). -/
def checkList : List (List Char) → Except SyntaxErr (List (List Char))
  | [] => .ok []
  | x :: rest =>
    match checkLine x with
    | .error e => .error e
    | .ok y =>
      match checkList rest with
      | .error e => .error e
      | .ok ys => .ok (y :: ys)

/-- `check(list)`: the corrected text, unless some line's parse raised. -/
def check (text : List Char) : Except SyntaxErr (List Char) :=
  (checkList (splitNl text)).map joinNl

/-- Spec-side (claim C5): the pattern with a single trailing `^` separator
stripped, otherwise verbatim. -/
def stripCaret (p : List Char) : List Char :=
  if p.getLast? = some '^' then p.dropLast else p

/-- Spec-side (claim C5): the interior characters of the pattern — those
strictly between the first character and the last character that remains
after stripping one optional trailing `^`. -/
def interiorOf (p : List Char) : List Char :=
  ((stripCaret p).drop 1).dropLast

/-- Spec-side (claim C5): two adjacent characters of the list are both `.`. -/
def hasAdjacentDots : List Char → Bool
  | c1 :: c2 :: rest => (c1 = '.' && c2 = '.') || hasAdjacentDots (c2 :: rest)
  | _ => false

/-- Spec-side (claim C5): a path/query delimiter or the wildcard. -/
def c5BadInteriorChar (c : Char) : Bool :=
  c = '|' || c = '#' || c = '/' || c = '?' || c = '&' || c = '*'

/-- Spec-side (claim C5): the disjunction of the rejection conditions as the
claim states them — regexp-delimited pattern; an anchored pattern; length
below 3; first character not an ASCII letter or digit; last character (after
stripping one optional trailing `^`) not an ASCII letter; a bad interior
character; two adjacent interior dots; no dot anywhere in the pattern. -/
def c5SpecRejects (d : NetworkFilter) : Bool :=
  (d.pattern.head? = some '/' && d.pattern.getLast? = some '/') ||
  d.matchBeginningOfAddress || d.matchEndOfAddress ||
  decide (d.pattern.length < 3) ||
  !((d.pattern.head?.map fun c => isNumeric c.toNat || isAlphabet c.toNat).getD false) ||
  !(((stripCaret d.pattern).getLast?.map fun c => isAlphabet c.toNat).getD false) ||
  (interiorOf d.pattern).any c5BadInteriorChar ||
  hasAdjacentDots (interiorOf d.pattern) ||
  !(d.pattern.any fun c => c = '.')

/-- Proof helper for C5: a rejecting pair — a dot at one of the first `m`
positions of `s` immediately followed by another dot (the second dot may sit
just beyond the `m`-th position, matching the unbounded `charCodeAt(i+1)`
lookahead of the interior loop). -/
def adjDotsLk : List Char → Nat → Bool
  | _, 0 => false
  | [], _ + 1 => false
  | c :: rest, m + 1 => (c = '.' && rest.head? = some '.') || adjDotsLk rest m

/-- Claim C2 (amended): the pattern's right end as a natural index — the
line length when no modifier marker was confirmed, else one position before
the confirmed `$`. -/
def netPatEndNat (l : List Char) : Nat :=
  if netModMarker l = l.length then l.length else netModMarker l - 1

/-- Claim C10: a character that the classification scan of `parseFilter`
passes over — neither a comment starter, nor a network-filter trigger, nor
the cosmetic marker. -/
def isRouteNeutral (c : Char) : Bool :=
  !(c = '[' || c = '!' || c = '/' || c = ':' || c = '^' || c = '@' ||
    c = '|' || c = '#')

/-- C1.  The claim fails on the code: for the input lines `||a.example^`,
`@@||a.example^` in that order (non-strict), the fold ends with `a.example`
still in the blocked set and the excepted set empty, and the output contains
`127.0.0.1 a.example` — not the claimed empty blocked set.  The reason is
that the exception line's pattern is sliced without skipping the `@@`
prefix (the recorded pattern start is only advanced for the `|`/`||`
anchors), so it retains the leading `||`, hostname extraction fails, and
the exception branch skips the line.  The reversed order ends with
`a.example` blocked, as the claim states. -/
theorem c1_exception_ordering_code_result :
  compileHostsState (strL "||a.example^\n@@||a.example^") false =
    { exceptions := [], hostnames := [strL "a.example"], log := [] } ∧
  compileHosts (strL "||a.example^\n@@||a.example^") false = strL "127.0.0.1 a.example" ∧
  compileHostsState (strL "@@||a.example^\n||a.example^") false =
    { exceptions := [], hostnames := [strL "a.example"], log := [] } := by
  refine ⟨by decide, by decide, by decide⟩

/-- C3.  The claim fails on the code: for `@@||ads.example.com/path.js^`
the pattern retains the `||` prefix, so both the direct extraction and the
non-strict path-level fallback (truncation at the first `/` still leaves a
leading `|`) fail, and the non-strict fold ends with both sets empty —
`ads.example.com` is never excepted.  In strict mode the line falls through
to the exception branch with a null hostname, adding `null` (not any
hostname) to the excepted set. -/
theorem c3_path_level_exception_code_result :
  compileHostsState (strL "@@||ads.example.com/path.js^") false =
    { exceptions := [], hostnames := [], log := [] } ∧
  compileHostsState (strL "@@||ads.example.com/path.js^") true =
    { exceptions := [none], hostnames := [], log := [] } := by
  refine ⟨by decide, by decide⟩

/-- C4.  The claim fails on the code: `||a.example^$redirect=a\,b.js`
parses to TWO modifiers — `redirect` with value `a\` and a value-less
`b.js` — because the backslash branch of the value scan is a no-op
`continue` (it just moves to the next character, which any non-delimiter
character does anyway), so the escaped comma still terminates the value. -/
theorem c4_escaped_comma_code_result :
  (parseNetworkFilter (strL "||a.example^$redirect=a\\,b.js")).modifiers =
    [(strL "redirect", some (strL "a\\")), (strL "b.js", none)] := by decide

/-- C6.  The claim fails on the code: for the line `||a.example^$x= y `
(trailing space; modifier value with leading and trailing spaces), applying
the diagnosed edits produces `||a.example^$x==  ` — the one-sided overlap
test in `fix` corrupts a not-yet-applied edit lying entirely before the
applied one into a negative-length delete, which duplicates characters —
and re-diagnosing that corrected line yields two further edits (a trailing
whitespace run remains), not the empty list. -/
theorem c6_roundtrip_not_fixed_point :
  checkLine (strL "||a.example^$x= y ") = .ok (strL "||a.example^$x==  ") ∧
  (parseFilter (strL "||a.example^$x==  ")).map formatDiffs =
    .ok [.del .noWs 15 3, .del .noModValWs 16 2] ∧
  ¬ (parseFilter (strL "||a.example^$x==  ")).map formatDiffs = .ok [] := by
  refine ⟨by decide, by decide, by decide⟩

/-- C7.  The claim fails on the code: for the line `a` + space, the
trailing whitespace run starts at index 1 and has length 1, but `format`
emits the delete at offset 0 (the last NON-whitespace index) with length 2
— covering the preceding non-whitespace character `a` as well (applying it
deletes the whole line).  The leading-run delete (claimed symmetrical
behaviour) does cover exactly the run, as the second conjunct shows on
a space + `a`. -/
theorem c7_trailing_whitespace_off_by_one :
  (parseFilter (strL "a ")).map formatDiffs = .ok [.del .noWs 0 2] ∧
  ¬ (parseFilter (strL "a ")).map formatDiffs = .ok [.del .noWs 1 1] ∧
  (parseFilter (strL " a")).map formatDiffs = .ok [.del .noWs 0 1] := by
  refine ⟨by decide, by decide, by decide⟩

/-- C8.  Third-party promotion behaves as claimed: `||ads.example^$3p`
non-strict puts `ads.example` in the excepted set, not the blocked set, and
produces no output line; strict mode skips the promotion, blocks
`ads.example`, and outputs `127.0.0.1 ads.example`. -/
theorem c8_thirdparty_promotion :
  compileHostsState (strL "||ads.example^$3p") false =
    { exceptions := [some (strL "ads.example")], hostnames := [], log := [] } ∧
  compileHosts (strL "||ads.example^$3p") false = [] ∧
  compileHostsState (strL "||ads.example^$3p") true =
    { exceptions := [], hostnames := [strL "ads.example"], log := [] } ∧
  compileHosts (strL "||ads.example^$3p") true = strL "127.0.0.1 ads.example" := by
  refine ⟨by decide, by decide, by decide, by decide⟩

/-- C2, counterexample.  For `@@||a.example^` the parsed filter has
`matchSubdomains` set, yet its pattern is `||a.example^` — it begins AT the
double anchor (position 2 of the line), not immediately after it (position
4): the `@@` prefix is never added to the recorded pattern start. -/
theorem c2_counterexample_exception_anchor :
  (parseNetworkFilter (strL "@@||a.example^")).matchSubdomains = true ∧
  (parseNetworkFilter (strL "@@||a.example^")).pattern = strL "||a.example^" ∧
  ¬ (parseNetworkFilter (strL "@@||a.example^")).pattern =
      (strL "@@||a.example^").drop 4 := by
  refine ⟨by decide, by decide, by decide⟩

theorem c5Bad_eq (c : Char) : c5BadInteriorChar c = (isPathnamePattern c || c = '*') := by
  simp [c5BadInteriorChar, isPathnamePattern, Bool.or_assoc]

theorem interiorScanL_eq (s : List Char) : ∀ (m : Nat) (hd : Bool),
    interiorScanL s m hd =
      if (s.take m).any c5BadInteriorChar || adjDotsLk s m then none
      else some (hd || (s.take m).any (fun c => c = '.')) := by
  induction s with
  | nil =>
    intro m hd
    cases m <;> simp [interiorScanL, adjDotsLk]
  | cons c rest ih =>
    intro m hd
    cases m with
    | zero => simp [interiorScanL, adjDotsLk]
    | succ m =>
      by_cases hbad : (isPathnamePattern c || c = '*') = true
      · simp [interiorScanL, hbad, List.take_succ_cons, c5Bad_eq]
      · by_cases hdot : c = '.'
        · by_cases hnext : rest.head? = some '.'
          · simp [interiorScanL, hbad, hdot, hnext, adjDotsLk, List.take_succ_cons]
          · subst hdot
            simp [interiorScanL, hnext, adjDotsLk, List.take_succ_cons,
              c5Bad_eq, ih, show isPathnamePattern '.' = false from by decide]
        · simp [interiorScanL, hbad, hdot, adjDotsLk, List.take_succ_cons, c5Bad_eq, ih]

theorem adjDotsLk_eq_take (s : List Char) :
    ∀ m, adjDotsLk s m = hasAdjacentDots (s.take (m + 1)) := by
  induction s with
  | nil => intro m; cases m <;> simp [adjDotsLk, hasAdjacentDots]
  | cons c rest ih =>
    intro m
    cases m with
    | zero =>
      cases rest <;> simp [adjDotsLk, hasAdjacentDots]
    | succ m =>
      cases rest with
      | nil => cases m <;> simp [adjDotsLk, hasAdjacentDots]
      | cons c2 r2 =>
        simp [adjDotsLk, hasAdjacentDots, List.take_succ_cons, ih m]

theorem hasAdjacentDots_take_succ (s : List Char) :
    ∀ m, ¬ s[m]? = some '.' →
      hasAdjacentDots (s.take (m + 1)) = hasAdjacentDots (s.take m) := by
  induction s with
  | nil => intro m _; simp
  | cons c rest ih =>
    intro m hm
    cases m with
    | zero =>
      cases rest <;> simp [hasAdjacentDots]
    | succ m =>
      cases rest with
      | nil => simp
      | cons c2 r2 =>
        cases m with
        | zero =>
          simp only [List.getElem?_cons_succ, List.getElem?_cons_zero] at hm
          simp [hasAdjacentDots, List.take_succ_cons, Option.some_inj] at hm ⊢
          intro h1 h2
          exact absurd h2 hm
        | succ m =>
          have hrec := ih (m + 1) (by simpa using hm)
          simp only [List.take_succ_cons, hasAdjacentDots] at hrec ⊢
          rw [hrec]

theorem interiorOf_eq (p : List Char) :
    interiorOf p =
      (p.drop 1).take ((if p.getLast? = some '^' then p.length - 2 else p.length - 1) - 1) := by
  unfold interiorOf stripCaret
  by_cases hc : p.getLast? = some '^'
  · rw [if_pos hc, if_pos hc]
    rw [List.dropLast_eq_take, List.dropLast_eq_take, List.drop_take, List.take_take]
    congr 1
    simp [List.length_take, List.length_drop]
    omega
  · rw [if_neg hc, if_neg hc]
    rw [List.dropLast_eq_take]
    congr 1
    simp [List.length_drop]

theorem stripCaret_getLast? (p : List Char) (h3 : 3 ≤ p.length) :
    (stripCaret p).getLast? =
      p[if p.getLast? = some '^' then p.length - 2 else p.length - 1]? := by
  unfold stripCaret
  by_cases hc : p.getLast? = some '^'
  · rw [if_pos hc, if_pos hc]
    rw [List.getLast?_eq_getElem?, List.dropLast_eq_take, List.getElem?_take, List.length_take]
    rw [if_pos (by omega)]
    congr 1
    omega
  · rw [if_neg hc, if_neg hc]
    exact List.getLast?_eq_getElem? p

theorem any_dot_interior (p : List Char) (stop : Nat)
    (h1 : 1 ≤ stop) (h2 : stop < p.length)
    (hfirst : ∀ c, p[0]? = some c → (isNumeric c.toNat || isAlphabet c.toNat) = true)
    (hstop : ∀ c, p[stop]? = some c → isAlphabet c.toNat = true)
    (hbeyond : ∀ j, stop < j → j < p.length → p[j]? = some '^') :
    (p.any fun c => c = '.') = (((p.drop 1).take (stop - 1)).any fun c => c = '.') := by
  rw [Bool.eq_iff_iff, List.any_eq_true, List.any_eq_true]
  constructor
  · rintro ⟨x, hmem, hx⟩
    simp only [decide_eq_true_eq] at hx
    subst hx
    obtain ⟨n, hn⟩ := List.mem_iff_getElem?.mp hmem
    have hnlen : n < p.length := by
      by_contra hge
      rw [List.getElem?_eq_none (by omega)] at hn
      exact Option.noConfusion hn
    have hn0 : n ≠ 0 := by
      intro h0
      subst h0
      have := hfirst '.' hn
      simp [isNumeric, isAlphabet] at this
    have hnstop : n ≠ stop := by
      intro hs
      subst hs
      have := hstop '.' hn
      simp [isAlphabet] at this
    have hnbey : ¬ (stop < n) := by
      intro hgt
      have := hbeyond n hgt hnlen
      rw [hn] at this
      simp at this
    refine ⟨'.', ?_, by simp⟩
    apply List.mem_iff_getElem?.mpr
    refine ⟨n - 1, ?_⟩
    rw [List.getElem?_take, if_pos (by omega), List.getElem?_drop]
    have : 1 + (n - 1) = n := by omega
    rw [this, hn]
  · rintro ⟨x, hmem, hx⟩
    obtain ⟨n, hn⟩ := List.mem_iff_getElem?.mp hmem
    rw [List.getElem?_take] at hn
    by_cases hlt : n < stop - 1
    · rw [if_pos hlt, List.getElem?_drop] at hn
      refine ⟨x, List.mem_iff_getElem?.mpr ⟨1 + n, hn⟩, hx⟩
    · rw [if_neg hlt] at hn
      exact Option.noConfusion hn

theorem patFirstOk_head (p : List Char) :
    (p.head?.map fun c => isNumeric c.toNat || isAlphabet c.toNat).getD false = patFirstOk p := by
  rw [patFirstOk, List.head?_eq_getElem?]

theorem patLastOk_stripCaret (p : List Char) (h3 : 3 ≤ p.length) :
    ((stripCaret p).getLast?.map fun c => isAlphabet c.toNat).getD false = patLastOk p := by
  rw [patLastOk, stripCaret_getLast? p h3, patStop, patCaret, List.getLast?_eq_getElem?]
  simp

/-- C5.  Full characterization of `transformToHostnamePattern`: it returns
`none` exactly when at least one of the claim's rejection conditions holds
(`c5SpecRejects`, phrased from the claim: regexp-delimited pattern; an
anchor flag set; length below 3; first character not an ASCII letter or
digit; last character after stripping one optional trailing `^` not an
ASCII letter; an interior path/query delimiter or wildcard; two adjacent
interior dots; no dot anywhere), and on acceptance returns the pattern with
a single trailing `^` stripped and otherwise verbatim. -/
theorem c5_toHostname_spec (d : NetworkFilter) :
    transformToHostnamePattern d =
      if c5SpecRejects d then none else some (stripCaret d.pattern) := by
  by_cases hg : toHostGuard d = true
  · rw [transformToHostnamePattern, if_pos hg]
    have hrej : c5SpecRejects d = true := by
      rw [c5SpecRejects]
      simp only [toHostGuard, Bool.or_eq_true] at hg
      rcases hg with ((hr | he) | hb) | hl
      · have : (d.pattern.head? = some '/' && d.pattern.getLast? = some '/') = true := by
          rw [List.head?_eq_getElem?, List.getLast?_eq_getElem?]
          simpa [isRegexpPattern] using hr
        simp [this]
      · simp [he]
      · simp [hb]
      · simp [hl]
    rw [if_pos hrej]
  · have hg' := hg
    simp only [toHostGuard, Bool.or_eq_true, not_or] at hg'
    obtain ⟨⟨⟨hr, he⟩, hb⟩, hl⟩ := hg'
    have h3 : 3 ≤ d.pattern.length := by
      simp at hl
      omega
    have hb' : d.matchBeginningOfAddress = false := by simpa using hb
    have he' : d.matchEndOfAddress = false := by simpa using he
    have hregex : (d.pattern.head? = some '/' && d.pattern.getLast? = some '/') = false := by
      rw [List.head?_eq_getElem?, List.getLast?_eq_getElem?]
      simpa [isRegexpPattern] using hr
    rw [transformToHostnamePattern, if_neg hg]
    by_cases hf : patFirstOk d.pattern = true
    · rw [if_neg (by simp [hf])]
      by_cases hlast : patLastOk d.pattern = true
      · rw [if_neg (by simp [hlast])]
        have hio : interiorOf d.pattern = (d.pattern.drop 1).take (patStop d.pattern - 1) := by
          rw [interiorOf_eq]
          congr 2
          rw [patStop, patCaret, List.getLast?_eq_getElem?]
          simp
        have hstop1 : 1 ≤ patStop d.pattern := by
          rw [patStop]
          split <;> omega
        have hstop2 : patStop d.pattern < d.pattern.length := by
          rw [patStop]
          split <;> omega
        have hlastc : ∀ c, d.pattern[patStop d.pattern]? = some c → isAlphabet c.toNat = true := by
          intro c hc
          rw [patLastOk, hc] at hlast
          simpa using hlast
        have hsm : (d.pattern.drop 1)[patStop d.pattern - 1]? = d.pattern[patStop d.pattern]? := by
          rw [List.getElem?_drop]
          congr 1
          omega
        have hnotdot : ¬ (d.pattern.drop 1)[patStop d.pattern - 1]? = some '.' := by
          rw [hsm]
          intro hdd
          have := hlastc '.' hdd
          simp [isAlphabet] at this
        have hadj : adjDotsLk (d.pattern.drop 1) (patStop d.pattern - 1) =
            hasAdjacentDots (interiorOf d.pattern) := by
          rw [adjDotsLk_eq_take, hasAdjacentDots_take_succ _ _ hnotdot, hio]
        have hfirstc : ∀ c, d.pattern[0]? = some c →
            (isNumeric c.toNat || isAlphabet c.toNat) = true := by
          intro c hc
          rw [patFirstOk, hc] at hf
          simpa using hf
        have hbey : ∀ j, patStop d.pattern < j → j < d.pattern.length →
            d.pattern[j]? = some '^' := by
          intro j hj1 hj2
          rw [patStop] at hj1
          by_cases hcar : patCaret d.pattern = true
          · rw [if_pos hcar] at hj1
            have hj : j = d.pattern.length - 1 := by omega
            subst hj
            rw [patCaret] at hcar
            simpa using hcar
          · rw [if_neg hcar] at hj1
            omega
        have hdots : (d.pattern.any fun c => c = '.') =
            (((d.pattern.drop 1).take (patStop d.pattern - 1)).any fun c => c = '.') :=
          any_dot_interior d.pattern (patStop d.pattern) hstop1 hstop2 hfirstc hlastc hbey
        have hscan := interiorScanL_eq (d.pattern.drop 1) (patStop d.pattern - 1) false
        by_cases hbadAny :
            (((d.pattern.drop 1).take (patStop d.pattern - 1)).any c5BadInteriorChar) = true
        · rw [if_pos (by rw [Bool.or_eq_true]; exact Or.inl hbadAny)] at hscan
          rw [hscan]
          have hrej : c5SpecRejects d = true := by
            rw [c5SpecRejects]
            have hG : (interiorOf d.pattern).any c5BadInteriorChar = true := by
              rw [hio]
              exact hbadAny
            simp [hG]
          rw [if_pos hrej]
        · by_cases hadjv : adjDotsLk (d.pattern.drop 1) (patStop d.pattern - 1) = true
          · rw [if_pos (by rw [Bool.or_eq_true]; exact Or.inr hadjv)] at hscan
            rw [hscan]
            have hrej : c5SpecRejects d = true := by
              rw [c5SpecRejects]
              have hH : hasAdjacentDots (interiorOf d.pattern) = true := by
                rw [← hadj]
                exact hadjv
              simp [hH]
            rw [if_pos hrej]
          · rw [if_neg (by simp only [Bool.or_eq_true, not_or]; exact ⟨hbadAny, hadjv⟩)] at hscan
            rw [hscan]
            by_cases hdotv :
                (((d.pattern.drop 1).take (patStop d.pattern - 1)).any fun c => c = '.') = true
            · have hrejF : c5SpecRejects d = false := by
                rw [c5SpecRejects]
                have hG : (interiorOf d.pattern).any c5BadInteriorChar = false := by
                  rw [hio]
                  simpa using hbadAny
                have hH : hasAdjacentDots (interiorOf d.pattern) = false := by
                  rw [← hadj]
                  simpa using hadjv
                have hI : (d.pattern.any fun c => c = '.') = true := by
                  rw [hdots]
                  exact hdotv
                have hE : (d.pattern.head?.map fun c =>
                    isNumeric c.toNat || isAlphabet c.toNat).getD false = true := by
                  rw [patFirstOk_head]
                  exact hf
                have hF : ((stripCaret d.pattern).getLast?.map fun c =>
                    isAlphabet c.toNat).getD false = true := by
                  rw [patLastOk_stripCaret d.pattern h3]
                  exact hlast
                simp [hregex, hb', he', hG, hH, hI, hE, hF]
                omega
              have hnr : ¬ (c5SpecRejects d = true) := by simp [hrejF]
              rw [if_neg hnr]
              have hgl : (d.pattern.getLast? = some '^') ↔ (patCaret d.pattern = true) := by
                rw [patCaret, List.getLast?_eq_getElem?]
                simp
              have hdm : '.' ∈ List.take (patStop d.pattern - 1) d.pattern.tail := by
                simpa using hdotv
              by_cases hcar : patCaret d.pattern = true
              · rw [stripCaret, if_pos (hgl.mpr hcar), List.dropLast_eq_take]
                simp [hcar, hdm]
              · rw [stripCaret, if_neg (fun hh => hcar (hgl.mp hh))]
                simp [hcar, hdm]
            · have hrej : c5SpecRejects d = true := by
                rw [c5SpecRejects]
                have hI : (d.pattern.any fun c => c = '.') = false := by
                  rw [hdots]
                  exact Bool.eq_false_iff.mpr hdotv
                simp [hI]
              have hdf : (((d.pattern.drop 1).take (patStop d.pattern - 1)).any
                  fun c => c = '.') = false := Bool.eq_false_iff.mpr hdotv
              rw [if_pos hrej]
              simp only [hdf]
              simp
      · rw [if_pos (by simp [hlast])]
        have hrej : c5SpecRejects d = true := by
          rw [c5SpecRejects]
          have hF : ((stripCaret d.pattern).getLast?.map fun c =>
              isAlphabet c.toNat).getD false = false := by
            rw [patLastOk_stripCaret d.pattern h3]
            simpa using hlast
          simp [hF]
        rw [if_pos hrej]
    · rw [if_pos (by simp [hf])]
      have hrej : c5SpecRejects d = true := by
        rw [c5SpecRejects]
        have hE : (d.pattern.head?.map fun c =>
            isNumeric c.toNat || isAlphabet c.toNat).getD false = false := by
          rw [patFirstOk_head]
          simpa using hf
        simp [hE]
      rw [if_pos hrej]

theorem cosmeticScanAux_all_at (s : List Char) :
    ∀ i b, (s.all fun c => c = '@') = true →
      cosmeticScanAux s i b = .ok (i + s.length, b || !s.isEmpty) := by
  induction s with
  | nil => intro i b _; simp [cosmeticScanAux]
  | cons c rest ih =>
    intro i b hall
    simp only [List.all_cons, Bool.and_eq_true, decide_eq_true_eq] at hall
    rw [cosmeticScanAux, if_pos hall.1, ih (i + 1) true hall.2]
    simp
    omega

theorem routeScanAux_neutral (l : List Char) (p : Nat) (hp : p < l.length)
    (hh : l[p]? = some '#')
    (hbefore : ((l.take p).all isRouteNeutral) = true) :
    ∀ k i, i + k = p →
      routeScanAux l (l.drop i) i = (parseCosmeticFilter l p).map .cosmetic := by
  intro k
  induction k with
  | zero =>
    intro i hik
    have hip : p = i := by omega
    subst hip
    rw [List.drop_eq_getElem_cons hp]
    have hc : l[p] = '#' := by
      have hg := List.getElem?_eq_getElem hp
      rw [hg] at hh
      exact (Option.some_inj.mp hh.symm).symm
    rw [hc]
    simp [routeScanAux]
  | succ k ih =>
    intro i hik
    have hilen : i < l.length := by omega
    rw [List.drop_eq_getElem_cons hilen]
    have hmem : l[i] ∈ l.take p := by
      apply List.mem_iff_getElem?.mpr
      refine ⟨i, ?_⟩
      rw [List.getElem?_take, if_pos (by omega), List.getElem?_eq_getElem hilen]
    have hneu : isRouteNeutral l[i] = true := by
      rw [List.all_eq_true] at hbefore
      exact hbefore _ hmem
    simp only [isRouteNeutral, Bool.not_eq_true', Bool.or_eq_false_iff,
      decide_eq_false_iff_not] at hneu
    rw [routeScanAux]
    rw [if_neg (by simp [hneu.1.1.1.1.1.1.1, hneu.1.1.1.1.1.1.2]),
        if_neg (by simp [hneu.1.1.1.1.1.2, hneu.1.1.1.1.2, hneu.1.1.1.2, hneu.1.1.2, hneu.1.2]),
        if_neg (by simp [hneu.2])]
    exact ih (i + 1) (by omega)

/-- C10.  A line routed to cosmetic parsing (first `#` at position `p`, all
earlier characters classification-neutral) in which only `@` characters (or
nothing) follow the first `#` parses WITHOUT a syntax error: the result is a
`CosmeticFilter` with empty selector whose `isException` flag is set exactly
when at least one `@` follows the `#` (i.e. when `p + 1 < l.length`, as all
those characters are `@`). -/
theorem c10_unterminated_marker_ok (l : List Char) (p : Nat)
    (hh : l[p]? = some '#')
    (hbefore : ((l.take p).all isRouteNeutral) = true)
    (hafter : ((l.drop (p + 1)).all fun c => c = '@') = true) :
    parseFilter l = .ok (.cosmetic
      { line := l, hostname := l.take p, selector := [],
        isException := decide (p + 1 < l.length) }) := by
  have hp : p < l.length := by
    by_contra hc
    rw [List.getElem?_eq_none (by omega)] at hh
    exact Option.noConfusion hh
  have hne : ¬ l.length = 0 := by omega
  rw [parseFilter, if_neg hne]
  have hroute := routeScanAux_neutral l p hp hh hbefore p 0 (by omega)
  rw [List.drop_zero] at hroute
  rw [hroute, parseCosmeticFilter, cosmeticScanAux_all_at _ _ _ hafter]
  have hlen : p + 1 + (l.drop (p + 1)).length = l.length := by
    rw [List.length_drop]
    omega
  have hexc : (false || !(l.drop (p + 1)).isEmpty) = decide (p + 1 < l.length) := by
    rw [Bool.false_or]
    by_cases hq : p + 1 < l.length
    · simp only [decide_eq_true hq, List.isEmpty_iff, List.drop_eq_nil_iff]
      simp
      omega
    · simp only [decide_eq_false hq, List.isEmpty_iff, List.drop_eq_nil_iff]
      simp
      omega
  rw [Except.map, hlen, hexc]
  rw [List.drop_length]
  rfl

/-- C10, witness: `example.com#@` — marker scan hits end of line after one
`@`; no error, empty selector, exception flag set. -/
theorem c10_unterminated_marker_witness :
    parseFilter (strL "example.com#@") = .ok (.cosmetic
      { line := strL "example.com#@", hostname := strL "example.com",
        selector := [], isException := true }) := by
  have h := c10_unterminated_marker_ok (strL "example.com#@") 11
    (by decide) (by decide) (by decide)
  exact h

/-- C9.  Error-propagation asymmetry.  For every line whose parse raises:
in the hosts-compilation path the error is caught, the line is recorded in
the log and skipped (sets untouched), and the fold continues over the
remaining lines; likewise in the structured-record (json) path; but in the
diagnostics path (`check`) the error is not caught — whenever the preceding
lines parse cleanly, the whole run aborts with that line's error, whatever
lines follow. -/
theorem c9_error_propagation_asymmetry (bad : List Char) (e : SyntaxErr)
    (hbad : parseFilter bad = .error e) :
    (∀ (strict : Bool) (st : HostsState),
       hostsStep strict st bad = { st with log := st.log ++ [bad] }) ∧
    (∀ st : List FilterRecord × List (List Char),
       jsonStep st bad = (st.1, st.2 ++ [bad])) ∧
    (∀ (strict : Bool) (st : HostsState) (ys : List (List Char)),
       (bad :: ys).foldl (hostsStep strict) st =
         ys.foldl (hostsStep strict) { st with log := st.log ++ [bad] }) ∧
    (∀ xs ys : List (List Char), (∀ x ∈ xs, ∃ r, parseFilter x = .ok r) →
       checkList (xs ++ bad :: ys) = .error e) := by
  refine ⟨?_, ?_, ?_, ?_⟩
  · intro strict st
    rw [hostsStep, hbad]
  · intro st
    rw [jsonStep, hbad]
  · intro strict st ys
    rw [List.foldl_cons, hostsStep, hbad]
  · intro xs
    induction xs with
    | nil =>
      intro ys _
      rw [List.nil_append, checkList, checkLine, hbad]
      rfl
    | cons x rest ih =>
      intro ys hall
      obtain ⟨r, hr⟩ := hall x (List.mem_cons_self x rest)
      rw [List.cons_append, checkList, checkLine, hr]
      have := ih ys (fun y hy => hall y (List.mem_cons_of_mem x hy))
      rw [this]
      rfl

/-- C9, witness: the cosmetic line `example.com#x` raises a `SyntaxError` at
position 12; the hosts fold logs and skips it, while `check` aborts even
though a valid line precedes and another follows. -/
theorem c9_error_propagation_witness :
    hostsStep false ⟨[], [], []⟩ (strL "example.com#x") =
      ⟨[], [], [strL "example.com#x"]⟩ ∧
    checkList [strL "||a.example^", strL "example.com#x", strL "!c"] =
      .error ⟨12⟩ := by
  have h := c9_error_propagation_asymmetry (strL "example.com#x") ⟨12⟩ (by decide)
  refine ⟨h.1 false ⟨[], [], []⟩, ?_⟩
  have h4 := h.2.2.2 [strL "||a.example^"] [strL "!c"] ?_
  · exact h4
  · intro x hx
    rw [List.mem_singleton] at hx
    subst hx
    exact ⟨.network (parseNetworkFilter (strL "||a.example^")), by decide⟩

theorem findIdx?_prop {α : Type} (p : α → Bool) (l : List α) (k : Nat)
    (h : l.findIdx? p = some k) : ∃ c, l[k]? = some c ∧ p c = true := by
  have h2 := List.findIdx?_eq_some_iff_findIdx_eq.mp h
  refine ⟨l.get ⟨k, h2.1⟩, ?_, ?_⟩
  · rw [List.getElem?_eq_getElem h2.1]
    rfl
  · have h3 := @List.findIdx_getElem _ p l (by rw [h2.2]; exact h2.1)
    simp only [h2.2] at h3
    exact h3

theorem findEqDollar_some (l : List Char) (j k : Nat)
    (h : findEqDollar l j = some k) :
    j ≤ k ∧ k < l.length ∧ (l[k]? = some '=' ∨ l[k]? = some '$') := by
  unfold findEqDollar at h
  cases hf : ((l.drop j).findIdx? fun c => c = '=' || c = '$') with
  | none => rw [hf] at h; exact Option.noConfusion h
  | some r =>
    rw [hf] at h
    simp at h
    obtain ⟨c, hc, hp⟩ := findIdx?_prop _ _ _ hf
    have hr : r < l.length - j := by
      by_contra hge
      rw [List.getElem?_eq_none (by simp [List.length_drop]; omega)] at hc
      exact Option.noConfusion hc
    have hk : k = r + j := by omega
    subst hk
    refine ⟨by omega, by omega, ?_⟩
    rw [List.getElem?_drop] at hc
    have : j + r = r + j := by omega
    rw [this] at hc
    simp only [Bool.or_eq_true, decide_eq_true_eq] at hp
    rcases hp with hp | hp
    · left; rw [hc, hp]
    · right; rw [hc, hp]

theorem findModAux_ge : ∀ (fuel : Nat) (l : List Char) (i : Nat),
    i ≤ findModAux fuel l i := by
  intro fuel
  induction fuel with
  | zero => intro l i; rw [findModAux]
  | succ fuel ih =>
    intro l i
    rw [findModAux]
    by_cases hi : i < l.length
    · rw [if_pos hi]
      by_cases hd : l[i]? = some '$'
      · rw [if_pos hd]
        cases hf : findEqDollar l (i + 1) with
        | none => exact Nat.le_refl i
        | some k =>
          try dsimp only
          obtain ⟨hk1, _, _⟩ := findEqDollar_some l (i + 1) k hf
          by_cases hk : l[k]? = some '$'
          · rw [if_pos hk]
            have := ih l (k + 1)
            omega
          · rw [if_neg hk]
      · rw [if_neg hd]
        have := ih l (i + 1)
        omega
    · rw [if_neg hi]

theorem findModAux_spec : ∀ (fuel : Nat) (l : List Char) (i : Nat),
    l.length + 1 - i ≤ fuel → i ≤ l.length →
    (findModAux fuel l i = l.length ∨
      (findModAux fuel l i < l.length ∧ l[findModAux fuel l i]? = some '$')) := by
  intro fuel
  induction fuel with
  | zero => intro l i hfu hil; omega
  | succ fuel ih =>
    intro l i hfu hil
    rw [findModAux]
    by_cases hi : i < l.length
    · rw [if_pos hi]
      by_cases hd : l[i]? = some '$'
      · rw [if_pos hd]
        cases hf : findEqDollar l (i + 1) with
        | none => exact Or.inr ⟨hi, hd⟩
        | some k =>
          try dsimp only
          obtain ⟨hk1, hk2, _⟩ := findEqDollar_some l (i + 1) k hf
          by_cases hk : l[k]? = some '$'
          · rw [if_pos hk]
            exact ih l (k + 1) (by omega) (by omega)
          · rw [if_neg hk]
            exact Or.inr ⟨hi, hd⟩
      · rw [if_neg hd]
        exact ih l (i + 1) (by omega) (by omega)
    · rw [if_neg hi]
      exact Or.inl (by omega)

theorem getElem?_some_lt {α : Type} (l : List α) (i : Nat) (c : α)
    (h : l[i]? = some c) : i < l.length := by
  by_contra hc
  rw [List.getElem?_eq_none (by omega)] at h
  exact Option.noConfusion h

theorem netAnchorEnd_le (l : List Char) : netAnchorEnd l ≤ l.length := by
  unfold netAnchorEnd netAfterExc
  by_cases hexc : netExcFlag l = true
  · have h1 : l[1]? = some '@' := by
      unfold netExcFlag at hexc
      simp only [Bool.and_eq_true, decide_eq_true_eq] at hexc
      exact hexc.2
    have hl1 := getElem?_some_lt l 1 '@' h1
    rw [if_pos hexc]
    by_cases hp : l[2]? = some '|'
    · rw [if_pos hp]
      have hl2 := getElem?_some_lt l 2 '|' hp
      by_cases hp2 : l[2 + 1]? = some '|'
      · rw [if_pos hp2]
        have := getElem?_some_lt l 3 '|' hp2
        omega
      · rw [if_neg hp2]
        omega
    · rw [if_neg hp]
      omega
  · rw [if_neg hexc]
    by_cases hp : l[0]? = some '|'
    · rw [if_pos hp]
      have hl0 := getElem?_some_lt l 0 '|' hp
      by_cases hp2 : l[0 + 1]? = some '|'
      · rw [if_pos hp2]
        have := getElem?_some_lt l 1 '|' hp2
        omega
      · rw [if_neg hp2]
        omega
    · rw [if_neg hp]
      omega

theorem jsSlice_natIdx (l : List Char) (a b : Nat) (hb : b ≤ l.length) :
    jsSlice l (a : Int) (b : Int) = (l.take b).drop a := by
  unfold jsSlice jsSliceIdx
  rw [if_neg (by omega), if_neg (by omega)]
  have ha' : ((a : Int)).toNat = a := Int.toNat_natCast a
  have hb' : ((b : Int)).toNat = b := Int.toNat_natCast b
  rw [ha', hb', min_eq_left hb]
  by_cases ha : a ≤ l.length
  · rw [min_eq_left ha]
  · rw [min_eq_right (by omega)]
    rw [List.drop_eq_nil_of_le (by simp [List.length_take]),
        List.drop_eq_nil_of_le (by simp [List.length_take]; omega)]

theorem routeScanAux_network (l : List Char) (d : NetworkFilter) :
    ∀ (s : List Char) (i : Nat), routeScanAux l s i = .ok (.network d) →
      d = parseNetworkFilter l := by
  intro s
  induction s with
  | nil =>
    intro i h
    rw [routeScanAux] at h
    simp at h
    exact h.symm
  | cons c rest ih =>
    intro i h
    rw [routeScanAux] at h
    by_cases h1 : (c = '[' || c = '!') = true
    · rw [if_pos h1] at h
      exact absurd h (by simp)
    rw [if_neg h1] at h
    by_cases h2 : (c = '/' || c = ':' || c = '^' || c = '@' || c = '|') = true
    · rw [if_pos h2] at h
      simp at h
      exact h.symm
    rw [if_neg h2] at h
    by_cases h3 : c = '#'
    · rw [if_pos h3] at h
      cases hpc : parseCosmeticFilter l i with
      | error e =>
        rw [hpc] at h
        exact absurd h (by simp [Except.map])
      | ok cf =>
        rw [hpc] at h
        exact absurd h (by simp [Except.map])
    rw [if_neg h3] at h
    exact ih _ h

theorem network_of_parseFilter (l : List Char) (d : NetworkFilter)
    (h : parseFilter l = .ok (.network d)) : d = parseNetworkFilter l := by
  rw [parseFilter] at h
  by_cases h0 : l.length = 0
  · rw [if_pos h0] at h
    exact absurd h (by simp)
  · rw [if_neg h0] at h
    exact routeScanAux_network l d l 0 h

/-- C2 (amended).  For every line that parses to a `NetworkFilter`, whose
first character is non-whitespace and whose exception flag is unset (no
leading `@@`): if `matchSubdomains` is set the line starts with `||` and the
pattern begins immediately after the double anchor; if
`matchBeginningOfAddress` is set the line starts with a single `|` and the
pattern begins immediately after it.  The pattern's right end
(`netPatEndNat`): when the modifier scan finds no `$` marker it is the line
length (so a trailing `|` anchor is retained in the pattern); when the scan
confirms a `$` marker it is one position before that `$`, excluding the
modifier section together with the single character before the `$` (the
trailing anchor/separator when one is present). -/
theorem c2_amended_anchor_pattern (l : List Char) (d : NetworkFilter)
    (hparse : parseFilter l = .ok (.network d))
    (hw : firstNonWsIdx l = some 0)
    (hexc : d.isException = false) :
    (d.matchSubdomains = true →
        l[0]? = some '|' ∧ l[1]? = some '|' ∧
        d.pattern = (l.take (netPatEndNat l)).drop 2) ∧
    (d.matchBeginningOfAddress = true →
        l[0]? = some '|' ∧ ¬ l[1]? = some '|' ∧
        d.pattern = (l.take (netPatEndNat l)).drop 1) ∧
    (netModMarker l = l.length → netPatEndNat l = l.length) ∧
    (netModMarker l < l.length →
        l[netModMarker l]? = some '$' ∧ netPatEndNat l = netModMarker l - 1) := by
  have hd := network_of_parseFilter l d hparse
  subst hd
  have hef : netExcFlag l = false := hexc
  have hae : netAfterExc l = 0 := by
    rw [netAfterExc, hef]
    rfl
  have hmp : netModMarker l = l.length ∨
      (netModMarker l < l.length ∧ l[netModMarker l]? = some '$') := by
    unfold netModMarker
    exact findModAux_spec (l.length + 1) l (netAnchorEnd l) (by omega) (netAnchorEnd_le l)
  have hmpLe : netModMarker l ≤ l.length := by
    rcases hmp with h | h
    · omega
    · omega
  have hpatEndNat_le : netPatEndNat l ≤ l.length := by
    rw [netPatEndNat]
    split <;> omega
  refine ⟨?_, ?_, ?_, ?_⟩
  · intro hsubs
    have hsubs' : netSubsFlag l = true := hsubs
    rw [netSubsFlag, hae] at hsubs'
    simp only [Bool.and_eq_true, decide_eq_true_eq] at hsubs'
    refine ⟨hsubs'.1, hsubs'.2, ?_⟩
    have hboa : netBoaFlag l = false := by
      rw [netBoaFlag, hae]
      simp [hsubs'.2]
    have hstart : netPatStart l = 2 := by
      rw [netPatStart, hw, hboa]
      have hs : netSubsFlag l = true := hsubs
      rw [hs]
      rfl
    have hge : 2 ≤ netModMarker l := by
      have h2 : netAnchorEnd l = 2 := by
        rw [netAnchorEnd, hae]
        rw [if_pos hsubs'.1, if_pos hsubs'.2]
      unfold netModMarker
      rw [h2]
      exact findModAux_ge (l.length + 1) l 2
    have hend : netPatEnd l = (netPatEndNat l : Int) := by
      rw [netPatEnd, netPatEndNat]
      split
      · rfl
      · omega
    show jsSlice l (netPatStart l) (netPatEnd l) = (l.take (netPatEndNat l)).drop 2
    rw [hstart, hend]
    exact jsSlice_natIdx l 2 (netPatEndNat l) hpatEndNat_le
  · intro hboa
    have hboa' : netBoaFlag l = true := hboa
    rw [netBoaFlag, hae] at hboa'
    simp only [Bool.and_eq_true, decide_eq_true_eq, Bool.not_eq_true',
      decide_eq_false_iff_not] at hboa'
    refine ⟨hboa'.1, hboa'.2, ?_⟩
    have hsubs : netSubsFlag l = false := by
      rw [netSubsFlag, hae]
      simp [hboa'.2]
    have hstart : netPatStart l = 1 := by
      rw [netPatStart, hw]
      have hbf : netBoaFlag l = true := hboa
      rw [hbf]
      rfl
    have hge : 1 ≤ netModMarker l := by
      have h1 : netAnchorEnd l = 1 := by
        rw [netAnchorEnd, hae]
        rw [if_pos hboa'.1, if_neg (by simpa using hboa'.2)]
      unfold netModMarker
      rw [h1]
      exact findModAux_ge (l.length + 1) l 1
    have hend : netPatEnd l = (netPatEndNat l : Int) := by
      rw [netPatEnd, netPatEndNat]
      split
      · rfl
      · omega
    show jsSlice l (netPatStart l) (netPatEnd l) = (l.take (netPatEndNat l)).drop 1
    rw [hstart, hend]
    exact jsSlice_natIdx l 1 (netPatEndNat l) hpatEndNat_le
  · intro h
    rw [netPatEndNat, if_pos h]
  · intro h
    rcases hmp with hmp | hmp
    · omega
    · exact ⟨hmp.2, by rw [netPatEndNat, if_neg (by omega)]⟩

/-- C2 (amended), witness: `||a.example^$3p` — `matchSubdomains` is set, the
modifier marker is confirmed at position 12 (`$`), the pattern's right end
is 11 (dropping the `^` before the `$`), and the pattern is the substring
between the `||` anchor and that end: `a.example`. -/
theorem c2_amended_anchor_pattern_witness :
    (parseNetworkFilter (strL "||a.example^$3p")).pattern =
      ((strL "||a.example^$3p").take (netPatEndNat (strL "||a.example^$3p"))).drop 2 := by
  have h := c2_amended_anchor_pattern (strL "||a.example^$3p")
    (parseNetworkFilter (strL "||a.example^$3p")) (by decide) (by decide) (by decide)
  exact (h.1 (by decide)).2.2
